import Mathlib

/-
  Verification development for the real-time piano sample-playback engine
  (AudioWorklet processor).  The definitions below are a shallow embedding
  of the processor: JS numbers are modelled by ℝ (MIDI note numbers and
  map keys by ℤ), Float32Array by List ℝ, JS Map by an association list,
  JS Set (insertion ordered, duplicate free) by List ℤ.  The engine
  duplicates its mono mix identically into every output channel, so the
  output buffer is modelled as a single mono channel.
-/

noncomputable section

namespace Piano

/-- DSP constants of the processor module. -/
def SAMPLE_RATE : ℝ := 44100

def RELEASE_TIME : ℝ := 1.0

def ANTI_CLICK_TIME : ℝ := 0.005

def DECAY_FACTOR : ℝ := Real.exp (-1.0 / (SAMPLE_RATE * 0.2))

def RELEASE_FACTOR : ℝ := Real.exp (-Real.log 1000 / (SAMPLE_RATE * RELEASE_TIME))

/-- Feedback comb filter: a delay-line buffer, a write index and a feedback
coefficient. -/
structure CombFilter where
  buffer : List ℝ
  writeIndex : ℕ
  feedback : ℝ

/-- One comb-filter step: read the delayed sample, write input plus fed-back
output at the write index, advance the write index modulo the buffer length,
and return the delayed sample. -/
def CombFilter.process (cf : CombFilter) (input : ℝ) : CombFilter × ℝ :=
  let output := cf.buffer.getD cf.writeIndex 0
  ({ buffer := cf.buffer.set cf.writeIndex (input + output * cf.feedback),
     writeIndex := (cf.writeIndex + 1) % cf.buffer.length,
     feedback := cf.feedback }, output)

/-- Iterate the comb filter over a whole input sequence, collecting the
output sequence. -/
def CombFilter.run (cf : CombFilter) : List ℝ → CombFilter × List ℝ
  | [] => (cf, [])
  | x :: xs =>
      let r := cf.process x
      let rr := r.1.run xs
      (rr.1, r.2 :: rr.2)

/-- Comb filter constructor: a zeroed buffer of the given delay length. -/
def CombFilter.create (delaySamples : ℕ) (feedback : ℝ) : CombFilter :=
  { buffer := List.replicate delaySamples 0, writeIndex := 0, feedback := feedback }

/-- The four comb filters built in the processor constructor. -/
def initCombFilters : List CombFilter :=
  [CombFilter.create (⌊SAMPLE_RATE * 0.03⌋₊ + 113) 0.8,
   CombFilter.create (⌊SAMPLE_RATE * 0.03⌋₊ + 227) 0.78,
   CombFilter.create (⌊SAMPLE_RATE * 0.03⌋₊ + 331) 0.75,
   CombFilter.create (⌊SAMPLE_RATE * 0.03⌋₊ + 443) 0.72]

/-- One active voice of the pool. -/
structure Voice where
  midi : ℤ
  sample : List ℝ
  position : ℝ
  rate : ℝ
  velocity : ℝ
  currentGain : ℝ
  isReleasing : Bool
  isStopping : Bool

/-- The three life-cycle phases of the specification. -/
inductive Phase
  | sounding
  | stopping
  | releasing
deriving DecidableEq

/-- Derived phase of a voice, with the same priority the envelope code uses:
the stopping flag dominates, then the releasing flag, else the voice sounds. -/
def Voice.phase (v : Voice) : Phase :=
  if v.isStopping then Phase.stopping
  else if v.isReleasing then Phase.releasing
  else Phase.sounding

/-- Per-sample envelope multiplier a voice is subject to, by its flags. -/
def decayOf (v : Voice) : ℝ :=
  if v.isStopping then DECAY_FACTOR
  else if v.isReleasing then RELEASE_FACTOR
  else 1

/-- JS Map lookup over an association list. -/
def mapGet (m : List (ℤ × α)) (k : ℤ) : Option α :=
  List.lookup k m

/-- JS Map.set: replace the value at an existing key in place, else append. -/
def mapSet (m : List (ℤ × α)) (k : ℤ) (v : α) : List (ℤ × α) :=
  if (List.lookup k m).isSome then
    m.map (fun kv => if kv.1 = k then (k, v) else kv)
  else m ++ [(k, v)]

/-- JS Set.add for the insertion-ordered, duplicate-free pending set. -/
def setAdd (l : List ℤ) (x : ℤ) : List ℤ :=
  if x ∈ l then l else l ++ [x]

/-- Mutable state of the PianoProcessor. -/
structure PianoState where
  samples : List (ℤ × List ℝ)
  sampleMap : List (ℤ × ℤ)
  reverbWet : ℝ
  combFilters : List CombFilter
  sustainActive : Bool
  notesPendingRelease : List ℤ
  volume : ℝ
  velocitySensitivity : ℝ
  transpose : ℤ
  voices : List Voice

/-- Control messages accepted by the processor port. -/
inductive Msg
  | loadSample (midi : ℤ) (data : List ℝ)
  | updateMap (table : List (ℤ × ℤ))
  | noteOn (midi : ℤ) (velocity : ℝ)
  | noteOff (midi : ℤ)
  | sustain (active : Bool)
  | config (volume : Option ℝ) (velocitySensitivity : Option ℝ)
      (transpose : Option ℤ) (sustainEnabled : Option Bool) (reverb : Option ℝ)

/-- The note-on handler: resolve the effective pitch through the sample map,
fall out silently when unmapped or unloaded, mark colliding voices as
stopping, and append a fresh sounding voice at the computed playback rate. -/
def handleNoteOn (s : PianoState) (midi : ℤ) (velocity : ℝ) : PianoState :=
  let effectiveMidi := midi + s.transpose
  match mapGet s.sampleMap effectiveMidi with
  | none => s
  | some sampleMidi =>
    match mapGet s.samples sampleMidi with
    | none => s
    | some sample =>
      let stopped := s.voices.map (fun v =>
        if v.midi = midi ∧ v.isStopping = false then { v with isStopping := true } else v)
      let rate := (2 : ℝ) ^ (((effectiveMidi - sampleMidi : ℤ) : ℝ) / 12)
      { s with
        voices := stopped ++ [{ midi := midi, sample := sample, position := 0,
                                rate := rate, velocity := velocity,
                                currentGain := velocity,
                                isReleasing := false, isStopping := false }],
        notesPendingRelease := s.notesPendingRelease.erase midi }

/-- The note-off handler: with the pedal down the note only joins the pending
set; otherwise every matching non-releasing voice starts releasing. -/
def handleNoteOff (s : PianoState) (midi : ℤ) : PianoState :=
  if s.sustainActive then
    { s with notesPendingRelease := setAdd s.notesPendingRelease midi }
  else
    { s with voices := s.voices.map (fun v =>
        if v.midi = midi ∧ v.isReleasing = false then { v with isReleasing := true } else v) }

/-- The sustain handler: on a pedal-down to pedal-up transition release every
voice of every pending note and clear the pending set. -/
def handleSustain (s : PianoState) (active : Bool) : PianoState :=
  let previouslyActive := s.sustainActive
  let s1 := { s with sustainActive := active }
  if previouslyActive && !active then
    { s1 with
      voices := s1.notesPendingRelease.foldl
        (fun vs midi => vs.map (fun v =>
          if v.midi = midi ∧ v.isReleasing = false then { v with isReleasing := true } else v))
        s1.voices,
      notesPendingRelease := [] }
  else s1

/-- The message dispatcher of the processor port. -/
def handleMessage (s : PianoState) (m : Msg) : PianoState :=
  match m with
  | Msg.loadSample midi data => { s with samples := mapSet s.samples midi data }
  | Msg.updateMap table =>
      { s with sampleMap := table.foldl (fun mp kv => mapSet mp kv.1 kv.2) s.sampleMap }
  | Msg.noteOn midi velocity => handleNoteOn s midi velocity
  | Msg.noteOff midi => handleNoteOff s midi
  | Msg.sustain active => handleSustain s active
  | Msg.config volume velocitySensitivity transpose sustainEnabled reverb =>
      let s1 := match volume with
        | some db => { s with volume := (10 : ℝ) ^ (db / 20) }
        | none => s
      let s2 := match velocitySensitivity with
        | some vsv => { s1 with velocitySensitivity := vsv }
        | none => s1
      let s3 := match transpose with
        | some t => { s2 with transpose := t }
        | none => s2
      let s4 := match sustainEnabled with
        | some b => handleSustain s3 b
        | none => s3
      match reverb with
      | some r => { s4 with reverbWet := r }
      | none => s4

/-- Accumulate one input through every comb filter in order, returning the
advanced filters and the sum of their outputs. -/
def combBank : List CombFilter → ℝ → List CombFilter × ℝ
  | [], _ => ([], 0)
  | cf :: rest, input =>
      let r := cf.process input
      let rr := combBank rest input
      (r.1 :: rr.1, r.2 + rr.2)

/-- Linear interpolation of the sample buffer at the fractional position. -/
def interpolated (v : Voice) : ℝ :=
  let index := ⌊v.position⌋.toNat
  let frac := v.position - ⌊v.position⌋
  let val1 := v.sample.getD index 0
  let val2 := v.sample.getD (index + 1) 0
  val1 + frac * (val2 - val1)

/-- Body of the inner render loop for one frame n of one voice: interpolate
the sample, apply the per-phase exponential envelope, run the signal through
the comb bank when reverb is on, and accumulate the dry/wet mix into the
output frame, then advance the read position by the playback rate. -/
def frameStep (volume reverbWet : ℝ) (v : Voice) (cfs : List CombFilter)
    (out : List ℝ) (n : ℕ) : Voice × List CombFilter × List ℝ :=
  let rawSample := interpolated v
  let v1 := if v.isStopping then { v with currentGain := v.currentGain * DECAY_FACTOR }
            else if v.isReleasing then { v with currentGain := v.currentGain * RELEASE_FACTOR }
            else v
  let monoSignal := rawSample * v1.currentGain * volume
  let br := if 0 < reverbWet then
              let b := combBank cfs monoSignal
              (b.1, b.2 * 0.25)
            else (cfs, 0)
  let finalSignal := monoSignal * (1 - reverbWet * 0.5) + br.2 * reverbWet
  let out1 := out.set n (out.getD n 0 + finalSignal)
  ({ v1 with position := v1.position + v1.rate }, br.1, out1)

/-- Inner render loop of one voice over the remaining frames of a block:
kill the voice (gain zeroed) at buffer end or below the silence threshold,
otherwise run the frame body and continue with the next frame. -/
def renderVoiceFrames (volume reverbWet : ℝ) (maxPos : ℤ) :
    ℕ → ℕ → Voice → List CombFilter → List ℝ → Voice × List CombFilter × List ℝ
  | _, 0, v, cfs, out => (v, cfs, out)
  | n, fuel + 1, v, cfs, out =>
    if ⌊v.position⌋ ≥ maxPos ∨ v.currentGain < 0.001 then
      ({ v with currentGain := 0 }, cfs, out)
    else
      let r := frameStep volume reverbWet v cfs out n
      renderVoiceFrames volume reverbWet maxPos (n + 1) fuel r.1 r.2.1 r.2.2

/-- A full block of one voice, starting at frame 0. -/
def processVoice (volume reverbWet : ℝ) (bufferLength : ℕ) (v : Voice)
    (cfs : List CombFilter) (out : List ℝ) : Voice × List CombFilter × List ℝ :=
  let maxPos : ℤ := (v.sample.length : ℤ) - 2
  renderVoiceFrames volume reverbWet maxPos 0 bufferLength v cfs out

/-- The voice loop of the render pass.  The JS loop runs from the last voice
down to the first with in-place removal, so later voices are rendered first:
the recursion renders the tail before the head and drops a voice whose gain
has been zeroed or whose position has run past the interpolation margin. -/
def processVoices (volume reverbWet : ℝ) (bufferLength : ℕ) :
    List Voice → List CombFilter → List ℝ → List Voice × List CombFilter × List ℝ
  | [], cfs, out => ([], cfs, out)
  | v :: rest, cfs, out =>
      let rr := processVoices volume reverbWet bufferLength rest cfs out
      let r := processVoice volume reverbWet bufferLength v rr.2.1 rr.2.2
      let maxPos : ℤ := (r.1.sample.length : ℤ) - 2
      if r.1.currentGain ≤ 0 ∨ r.1.position ≥ (maxPos : ℝ) then (rr.1, r.2.1, r.2.2)
      else (r.1 :: rr.1, r.2.1, r.2.2)

/-- One render block: clear the output, run every voice, return the state
with the surviving voices and advanced comb filters plus the mono output. -/
def process (s : PianoState) (bufferLength : ℕ) : PianoState × List ℝ :=
  let out := List.replicate bufferLength (0 : ℝ)
  let r := processVoices s.volume s.reverbWet bufferLength s.voices s.combFilters out
  ({ s with voices := r.1, combFilters := r.2.1 }, r.2.2)

/-- Iterated render blocks of a fixed buffer length. -/
def processIter (L : ℕ) : ℕ → PianoState → PianoState
  | 0, s => s
  | n + 1, s => (process (processIter L n s) L).1

/-- A run of control messages alone, in arrival order. -/
def runMsgs (s : PianoState) (msgs : List Msg) : PianoState :=
  msgs.foldl handleMessage s

/-- A run of the engine: control messages interleaved with render blocks. -/
inductive Event
  | msg (m : Msg)
  | render (bufferLength : ℕ)

/-- Execute a list of events, collecting the output of every render block. -/
def runEvents (s : PianoState) : List Event → PianoState × List (List ℝ)
  | [] => (s, [])
  | Event.msg m :: rest => runEvents (handleMessage s m) rest
  | Event.render L :: rest =>
      let r := process s L
      let rr := runEvents r.1 rest
      (rr.1, r.2 :: rr.2)

/-- Erase the velocitySensitivity field of a config message. -/
def stripVS : Msg → Msg
  | Msg.config volume _ transpose sustainEnabled reverb =>
      Msg.config volume none transpose sustainEnabled reverb
  | m => m

/-- Erase the velocitySensitivity field of an event. -/
def stripEventVS : Event → Event
  | Event.msg m => Event.msg (stripVS m)
  | e => e

/-- Erase the velocitySensitivity field of the state. -/
def eraseVS (s : PianoState) : PianoState :=
  { s with velocitySensitivity := 0 }

/-- A small concrete engine state used to instantiate the theorems: one
loaded root sample at MIDI 60 and a pitch map covering 48, 60 and 72. -/
def baseState : PianoState :=
  { samples := [(60, [0, 0, 0, 0])], sampleMap := [(60, 60), (72, 60), (48, 60)],
    reverbWet := 0, combFilters := initCombFilters, sustainActive := false,
    notesPendingRelease := [], volume := 1, velocitySensitivity := 1,
    transpose := 0, voices := [] }

/-- A concrete voice for note 60 in the Sounding phase. -/
def soundingVoice : Voice :=
  { midi := 60, sample := [0, 0, 0, 0], position := 0, rate := 1,
    velocity := 1, currentGain := 1, isReleasing := false, isStopping := false }

/-- A concrete voice for note 60 in the Stopping phase. -/
def stoppingVoice : Voice :=
  { midi := 60, sample := [0, 0, 0, 0], position := 0, rate := 1,
    velocity := 1, currentGain := 1, isReleasing := false, isStopping := true }

/-- Concrete state with the pedal down and a sounding voice for note 60. -/
def pedalState : PianoState :=
  { baseState with sustainActive := true, voices := [soundingVoice] }

/-- Concrete state with the pedal down, note 60 pending release, and a
sounding voice for note 60. -/
def pedalPendingState : PianoState :=
  { baseState with sustainActive := true, notesPendingRelease := [60], voices := [soundingVoice] }

/-- A per-voice transformation never turns a non-Sounding voice back into a
Sounding one exactly when its images that sound come from sounding voices. -/
def reflectsSounding (f : Voice → Voice) : Prop :=
  ∀ v : Voice, (f v).phase = Phase.sounding → v.phase = Phase.sounding

/-- Concrete state with reverb on and an empty voice pool. -/
def reverbOnState : PianoState :=
  { baseState with reverbWet := 1 / 2 }

/-- A concrete one-sample comb filter with feedback 1/2. -/
def exCombFilter : CombFilter :=
  { buffer := [0], writeIndex := 0, feedback := 1 / 2 }

/-- The velocitySensitivity value a config message leaves behind, given the
value x held before: stripVS together with vsAfter splits a message into its
velocitySensitivity effect and the rest. -/
def vsAfter (x : ℝ) : Msg → ℝ
  | Msg.config _ (some v) _ _ _ => v
  | _ => x

/-- The voice component of one full render block of a single voice.  The
render loop evolves each voice's gain and position independently of the
master volume, the reverb amount, the comb filters, the output buffer and
the other voices, so this function (taken at arbitrary fixed values of
those inputs) is the evolution the render pass applies to every pool
member. -/
def voiceAfterBlock (L : ℕ) (v : Voice) : Voice :=
  (renderVoiceFrames 0 0 ((v.sample.length : ℤ) - 2) 0 L v [] []).1

/-- One render block seen by a single pool voice: the evolved voice, or none
when the block's cleanup removes it (gain at or below zero after a kill, or
read position past the interpolation margin). -/
def voiceStepBlock (L : ℕ) (v : Voice) : Option Voice :=
  if (voiceAfterBlock L v).currentGain ≤ 0 ∨
      (voiceAfterBlock L v).position ≥ ((((voiceAfterBlock L v).sample.length : ℤ) - 2 : ℤ) : ℝ)
  then none
  else some (voiceAfterBlock L v)

/-- The trajectory of a single pool voice across n render blocks. -/
def voiceIterBlocks (L : ℕ) : ℕ → Voice → Option Voice
  | 0, v => some v
  | n + 1, v => (voiceIterBlocks L n v).bind (voiceStepBlock L)

/-- Concrete two-voice pool right after a re-strike of note 60: the old
voice is Stopping while the new one is Sounding. -/
def restrikeState : PianoState :=
  { baseState with voices := [stoppingVoice, soundingVoice] }

/-- A concrete run setting velocitySensitivity to 1 and rendering a block. -/
def vsEvents1 : List Event :=
  [Event.msg (Msg.config none (some 1) none none none), Event.render 1]

/-- The same run with velocitySensitivity 2 instead. -/
def vsEvents2 : List Event :=
  [Event.msg (Msg.config none (some 2) none none none), Event.render 1]

/-! Helper lemmas about the render loop. -/

lemma frameStep_fst (vol wet : ℝ) (v : Voice) (cfs : List CombFilter)
    (out : List ℝ) (n : ℕ) :
    (frameStep vol wet v cfs out n).1 =
      { v with currentGain := v.currentGain * decayOf v,
               position := v.position + v.rate } := by
  obtain ⟨midi, sample, pos, rate, vel, gain, rel, stop⟩ := v
  cases stop <;> cases rel <;> simp [frameStep, decayOf]

lemma renderVoiceFrames_zero (vol wet : ℝ) (mp : ℤ) (n : ℕ) (v : Voice)
    (cfs : List CombFilter) (out : List ℝ) :
    renderVoiceFrames vol wet mp n 0 v cfs out = (v, cfs, out) := rfl

lemma renderVoiceFrames_succ (vol wet : ℝ) (mp : ℤ) (n fuel : ℕ) (v : Voice)
    (cfs : List CombFilter) (out : List ℝ) :
    renderVoiceFrames vol wet mp n (fuel + 1) v cfs out =
      if ⌊v.position⌋ ≥ mp ∨ v.currentGain < 0.001 then
        ({ v with currentGain := 0 }, cfs, out)
      else
        renderVoiceFrames vol wet mp (n + 1) fuel
          (frameStep vol wet v cfs out n).1
          (frameStep vol wet v cfs out n).2.1
          (frameStep vol wet v cfs out n).2.2 := by
  rw [renderVoiceFrames]

lemma renderVoiceFrames_shape (vol wet : ℝ) (mp : ℤ) (fuel : ℕ) :
    ∀ (n : ℕ) (v : Voice) (cfs : List CombFilter) (out : List ℝ),
      ∃ g p, (renderVoiceFrames vol wet mp n fuel v cfs out).1 =
        { v with currentGain := g, position := p } := by
  induction fuel with
  | zero => exact fun n v cfs out => ⟨v.currentGain, v.position, rfl⟩
  | succ fuel ih =>
      intro n v cfs out
      rw [renderVoiceFrames_succ]
      split
      · exact ⟨0, v.position, rfl⟩
      · obtain ⟨g, p, h⟩ := ih (n + 1) (frameStep vol wet v cfs out n).1
          (frameStep vol wet v cfs out n).2.1 (frameStep vol wet v cfs out n).2.2
        exact ⟨g, p, by rw [h, frameStep_fst]⟩

lemma renderVoiceFrames_gain (vol wet : ℝ) (mp : ℤ) (fuel : ℕ) :
    ∀ (n : ℕ) (v : Voice) (cfs : List CombFilter) (out : List ℝ),
      (renderVoiceFrames vol wet mp n fuel v cfs out).1.currentGain = 0 ∨
      ((renderVoiceFrames vol wet mp n fuel v cfs out).1.currentGain
          = v.currentGain * decayOf v ^ fuel ∧
       (renderVoiceFrames vol wet mp n fuel v cfs out).1.position
          = v.position + (fuel : ℝ) * v.rate) := by
  induction fuel with
  | zero =>
      intro n v cfs out
      right
      refine ⟨?_, ?_⟩ <;> simp [renderVoiceFrames_zero]
  | succ fuel ih =>
      intro n v cfs out
      rw [renderVoiceFrames_succ]
      split
      · left; rfl
      · rcases ih (n + 1) (frameStep vol wet v cfs out n).1
          (frameStep vol wet v cfs out n).2.1 (frameStep vol wet v cfs out n).2.2 with
          h | ⟨hg, hp⟩
        · left; exact h
        · right
          rw [hg, hp, frameStep_fst]
          constructor
          · show v.currentGain * decayOf v * decayOf v ^ fuel
              = v.currentGain * decayOf v ^ (fuel + 1)
            rw [pow_succ]; ring
          · show v.position + v.rate + (fuel : ℝ) * v.rate
              = v.position + ((fuel + 1 : ℕ) : ℝ) * v.rate
            push_cast; ring

lemma processVoice_def (vol wet : ℝ) (L : ℕ) (v : Voice) (cfs : List CombFilter)
    (out : List ℝ) :
    processVoice vol wet L v cfs out =
      renderVoiceFrames vol wet ((v.sample.length : ℤ) - 2) 0 L v cfs out := rfl

lemma processVoices_nil (vol wet : ℝ) (L : ℕ) (cfs : List CombFilter) (out : List ℝ) :
    processVoices vol wet L [] cfs out = ([], cfs, out) := rfl

lemma processVoices_cons (vol wet : ℝ) (L : ℕ) (v : Voice) (rest : List Voice)
    (cfs : List CombFilter) (out : List ℝ) :
    processVoices vol wet L (v :: rest) cfs out =
      (fun rr =>
        (fun r =>
          if r.1.currentGain ≤ 0 ∨ r.1.position ≥ (((r.1.sample.length : ℤ) - 2 : ℤ) : ℝ)
          then (rr.1, r.2.1, r.2.2)
          else (r.1 :: rr.1, r.2.1, r.2.2))
        (processVoice vol wet L v rr.2.1 rr.2.2))
      (processVoices vol wet L rest cfs out) := by
  rw [processVoices]

lemma processVoices_one_kill (vol wet : ℝ) (L : ℕ) (hL : 1 ≤ L) (v : Voice)
    (hg : v.currentGain < 0.001) (cfs : List CombFilter) (out : List ℝ) :
    (processVoices vol wet L [v] cfs out).1 = [] := by
  obtain ⟨k, rfl⟩ : ∃ k, L = k + 1 := ⟨L - 1, by omega⟩
  rw [processVoices_cons]
  simp only [processVoices_nil]
  have hr : (processVoice vol wet (k + 1) v cfs out).1 = { v with currentGain := 0 } := by
    rw [processVoice_def, renderVoiceFrames_succ, if_pos (Or.inr hg)]
  rw [hr]
  rw [if_pos (Or.inl le_rfl)]

lemma processVoices_one (vol wet : ℝ) (L : ℕ) (v : Voice)
    (cfs : List CombFilter) (out : List ℝ) :
    (processVoices vol wet L [v] cfs out).1 = [] ∨
    ∃ p, (processVoices vol wet L [v] cfs out).1 =
        [{ v with currentGain := v.currentGain * decayOf v ^ L, position := p }] ∧
      0 < v.currentGain * decayOf v ^ L := by
  rw [processVoices_cons]
  simp only [processVoices_nil]
  have hsh : (processVoice vol wet L v cfs out).1 =
      { v with currentGain := (processVoice vol wet L v cfs out).1.currentGain,
               position := (processVoice vol wet L v cfs out).1.position } := by
    obtain ⟨g, p, h⟩ := renderVoiceFrames_shape vol wet ((v.sample.length : ℤ) - 2) L 0 v cfs out
    rw [processVoice_def, h]
  split
  · left; rfl
  · next h =>
    rcases not_or.mp h with ⟨h1, _⟩
    have hpos : 0 < (processVoice vol wet L v cfs out).1.currentGain := not_le.mp h1
    rcases renderVoiceFrames_gain vol wet ((v.sample.length : ℤ) - 2) L 0 v cfs out with
      hz | ⟨hg, _⟩
    · rw [← processVoice_def] at hz
      exact absurd hz (ne_of_gt hpos)
    · rw [← processVoice_def] at hg
      right
      refine ⟨(processVoice vol wet L v cfs out).1.position, ?_, ?_⟩
      · rw [hsh, hg]
      · rw [← hg]; exact hpos

lemma DECAY_FACTOR_pos : 0 < DECAY_FACTOR := Real.exp_pos _

lemma DECAY_FACTOR_lt_one : DECAY_FACTOR < 1 := by
  unfold DECAY_FACTOR SAMPLE_RATE
  rw [Real.exp_lt_one_iff]
  norm_num

lemma RELEASE_FACTOR_pos : 0 < RELEASE_FACTOR := Real.exp_pos _

lemma RELEASE_FACTOR_lt_one : RELEASE_FACTOR < 1 := by
  unfold RELEASE_FACTOR SAMPLE_RATE RELEASE_TIME
  rw [Real.exp_lt_one_iff]
  have h1000 : 0 < Real.log 1000 := Real.log_pos (by norm_num)
  have : 0 < (44100 : ℝ) * 1.0 := by norm_num
  exact div_neg_of_neg_of_pos (neg_neg_of_pos h1000) this

lemma process_voices_eq (s : PianoState) (L : ℕ) :
    (process s L).1.voices =
      (processVoices s.volume s.reverbWet L s.voices s.combFilters
        (List.replicate L (0 : ℝ))).1 := rfl

lemma processIter_zero (L : ℕ) (s : PianoState) : processIter L 0 s = s := rfl

lemma processIter_succ (L m : ℕ) (s : PianoState) :
    processIter L (m + 1) s = (process (processIter L m s) L).1 := rfl

lemma processIter_singleton (L : ℕ) (s : PianoState) (v : Voice)
    (hv : s.voices = [v]) :
    ∀ m : ℕ, (processIter L m s).voices = [] ∨
      ∃ p, (processIter L m s).voices =
        [{ v with currentGain := v.currentGain * decayOf v ^ (L * m), position := p }] := by
  intro m
  induction m with
  | zero =>
      right
      refine ⟨v.position, ?_⟩
      rw [processIter_zero, hv]
      simp
  | succ m ih =>
      rw [processIter_succ]
      rcases ih with h | ⟨p, h⟩
      · left
        rw [process_voices_eq, h, processVoices_nil]
      · rcases processVoices_one (processIter L m s).volume (processIter L m s).reverbWet L
          { v with currentGain := v.currentGain * decayOf v ^ (L * m), position := p }
          (processIter L m s).combFilters (List.replicate L (0 : ℝ)) with h2 | ⟨p2, h2, _⟩
        · left
          rw [process_voices_eq, h, h2]
        · right
          refine ⟨p2, ?_⟩
          rw [process_voices_eq, h, h2]
          show [{ v with currentGain := v.currentGain * decayOf v ^ (L * m) * decayOf v ^ L, position := p2 }] = [{ v with currentGain := v.currentGain * decayOf v ^ (L * (m + 1)), position := p2 }]
          rw [mul_assoc, ← pow_add, show L * m + L = L * (m + 1) by ring]

lemma processIter_kill (L : ℕ) (hL : 1 ≤ L) (s : PianoState) (w : Voice)
    (hv : s.voices = [w]) (hg : w.currentGain < 0.001) :
    (processIter L 1 s).voices = [] := by
  rw [processIter_succ, processIter_zero, process_voices_eq, hv]
  exact processVoices_one_kill s.volume s.reverbWet L hL w hg s.combFilters _

lemma decayOf_pos (v : Voice) : 0 < decayOf v := by
  unfold decayOf
  split
  · exact DECAY_FACTOR_pos
  · split
    · exact RELEASE_FACTOR_pos
    · exact one_pos

lemma decayOf_lt_one (v : Voice)
    (h : v.phase = Phase.stopping ∨ v.phase = Phase.releasing) : decayOf v < 1 := by
  unfold Voice.phase at h
  unfold decayOf
  by_cases hs : v.isStopping = true
  · rw [if_pos hs]; exact DECAY_FACTOR_lt_one
  · rw [if_neg hs]
    by_cases hr : v.isReleasing = true
    · rw [if_pos hr]; exact RELEASE_FACTOR_lt_one
    · rw [if_neg hs, if_neg hr] at h
      rcases h with h | h <;> exact absurd h (by simp)

lemma rvf_voice_indep (vol wet vol2 wet2 : ℝ) (mp : ℤ) (fuel : ℕ) :
    ∀ (n n2 : ℕ) (v : Voice) (cfs cfs2 : List CombFilter) (out out2 : List ℝ),
      (renderVoiceFrames vol wet mp n fuel v cfs out).1
        = (renderVoiceFrames vol2 wet2 mp n2 fuel v cfs2 out2).1 := by
  induction fuel with
  | zero => intros; rfl
  | succ fuel ih =>
      intro n n2 v cfs cfs2 out out2
      rw [renderVoiceFrames_succ, renderVoiceFrames_succ]
      by_cases hc : ⌊v.position⌋ ≥ mp ∨ v.currentGain < 0.001
      · rw [if_pos hc, if_pos hc]
      · rw [if_neg hc, if_neg hc]
        rw [frameStep_fst vol wet v cfs out n, frameStep_fst vol2 wet2 v cfs2 out2 n2]
        exact ih (n + 1) (n2 + 1) _ _ _ _ _

lemma processVoice_voice (vol wet : ℝ) (L : ℕ) (v : Voice)
    (cfs : List CombFilter) (out : List ℝ) :
    (processVoice vol wet L v cfs out).1 = voiceAfterBlock L v := by
  rw [processVoice_def]
  unfold voiceAfterBlock
  exact rvf_voice_indep vol wet 0 0 ((v.sample.length : ℤ) - 2) L 0 0 v cfs [] out []

lemma processVoices_filterMap (vol wet : ℝ) (L : ℕ) :
    ∀ (vs : List Voice) (cfs : List CombFilter) (out : List ℝ),
      (processVoices vol wet L vs cfs out).1 = vs.filterMap (voiceStepBlock L) := by
  intro vs
  induction vs with
  | nil => intro cfs out; rfl
  | cons v rest ih =>
      intro cfs out
      rw [processVoices_cons]
      simp only [processVoice_voice, List.filterMap_cons]
      by_cases hdead : (voiceAfterBlock L v).currentGain ≤ 0 ∨
          (voiceAfterBlock L v).position ≥ ((((voiceAfterBlock L v).sample.length : ℤ) - 2 : ℤ) : ℝ)
      · rw [if_pos hdead]
        have hs : voiceStepBlock L v = none := by
          unfold voiceStepBlock
          rw [if_pos hdead]
        rw [hs, ih cfs out]
      · rw [if_neg hdead]
        have hs : voiceStepBlock L v = some (voiceAfterBlock L v) := by
          unfold voiceStepBlock
          rw [if_neg hdead]
        rw [hs, ih cfs out]

lemma filterMap_iterBlocks_zero (L : ℕ) : ∀ vs : List Voice,
    vs.filterMap (voiceIterBlocks L 0) = vs := by
  intro vs
  induction vs with
  | nil => rfl
  | cons v rest ih => simp [List.filterMap_cons, voiceIterBlocks, ih]

lemma processIter_voices (L : ℕ) (s : PianoState) :
    ∀ n : ℕ, (processIter L n s).voices = s.voices.filterMap (voiceIterBlocks L n) := by
  intro n
  induction n with
  | zero => rw [processIter_zero, filterMap_iterBlocks_zero]
  | succ n ih =>
      rw [processIter_succ, process_voices_eq, processVoices_filterMap, ih,
        List.filterMap_filterMap]
      rfl

lemma voiceStepBlock_char (L : ℕ) (v : Voice) :
    voiceStepBlock L v = none ∨
    ∃ p, voiceStepBlock L v
        = some { v with currentGain := v.currentGain * decayOf v ^ L, position := p } ∧
      0 < v.currentGain * decayOf v ^ L := by
  have hsh : voiceAfterBlock L v =
      { v with currentGain := (voiceAfterBlock L v).currentGain,
               position := (voiceAfterBlock L v).position } := by
    obtain ⟨g, p, h⟩ := renderVoiceFrames_shape 0 0 ((v.sample.length : ℤ) - 2) L 0 v [] []
    unfold voiceAfterBlock
    rw [h]
  unfold voiceStepBlock
  split
  · left; rfl
  · next h =>
    rcases not_or.mp h with ⟨h1, _⟩
    have hpos : 0 < (voiceAfterBlock L v).currentGain := not_le.mp h1
    rcases renderVoiceFrames_gain 0 0 ((v.sample.length : ℤ) - 2) L 0 v [] [] with hz | ⟨hg, _⟩
    · exact absurd hz (ne_of_gt hpos)
    · have hg2 : (voiceAfterBlock L v).currentGain = v.currentGain * decayOf v ^ L := hg
      right
      refine ⟨(voiceAfterBlock L v).position, ?_, ?_⟩
      · show some (voiceAfterBlock L v) = _
        rw [hsh, hg2]
      · rw [← hg2]
        exact hpos

lemma voiceStepBlock_kill (L : ℕ) (hL : 1 ≤ L) (v : Voice)
    (hg : v.currentGain < 0.001) : voiceStepBlock L v = none := by
  obtain ⟨k, rfl⟩ : ∃ k, L = k + 1 := ⟨L - 1, by omega⟩
  unfold voiceStepBlock voiceAfterBlock
  rw [renderVoiceFrames_succ, if_pos (Or.inr hg)]
  rw [if_pos (Or.inl le_rfl)]

lemma voiceIterBlocks_succ (L n : ℕ) (v : Voice) :
    voiceIterBlocks L (n + 1) v = (voiceIterBlocks L n v).bind (voiceStepBlock L) := rfl

lemma voiceIterBlocks_char (L : ℕ) (v : Voice) :
    ∀ m : ℕ, voiceIterBlocks L m v = none ∨
      ∃ p, voiceIterBlocks L m v
        = some { v with currentGain := v.currentGain * decayOf v ^ (L * m), position := p } := by
  intro m
  induction m with
  | zero =>
      right
      refine ⟨v.position, ?_⟩
      simp [voiceIterBlocks]
  | succ m ih =>
      rw [voiceIterBlocks_succ]
      rcases ih with h | ⟨p, h⟩
      · left; rw [h]; rfl
      · rw [h]
        rcases voiceStepBlock_char L
          { v with currentGain := v.currentGain * decayOf v ^ (L * m), position := p } with
          h2 | ⟨p2, h2, _⟩
        · left
          show voiceStepBlock L _ = none
          exact h2
        · right
          refine ⟨p2, ?_⟩
          show voiceStepBlock L _ = _
          rw [h2]
          show some { v with currentGain := v.currentGain * decayOf v ^ (L * m) * decayOf v ^ L, position := p2 } = some { v with currentGain := v.currentGain * decayOf v ^ (L * (m + 1)), position := p2 }
          rw [mul_assoc, ← pow_add, show L * m + L = L * (m + 1) by ring]

lemma voiceIterBlocks_eventually (L : ℕ) (hL : 1 ≤ L) (v : Voice)
    (hph : v.phase = Phase.stopping ∨ v.phase = Phase.releasing) :
    ∃ n : ℕ, voiceIterBlocks L n v = none := by
  by_cases hsmall : v.currentGain < 0.001
  · refine ⟨1, ?_⟩
    show (some v).bind (voiceStepBlock L) = none
    show voiceStepBlock L v = none
    exact voiceStepBlock_kill L hL v hsmall
  · have hg0 : (0 : ℝ) < v.currentGain := lt_of_lt_of_le (by norm_num) (not_lt.mp hsmall)
    have hε : (0 : ℝ) < 0.001 / v.currentGain := div_pos (by norm_num) hg0
    obtain ⟨n₀, hn₀⟩ := exists_pow_lt_of_lt_one hε (decayOf_lt_one v hph)
    rcases voiceIterBlocks_char L v n₀ with h | ⟨p, h⟩
    · exact ⟨n₀, h⟩
    · refine ⟨n₀ + 1, ?_⟩
      have hlt : v.currentGain * decayOf v ^ (L * n₀) < 0.001 := by
        have hle : decayOf v ^ (L * n₀) ≤ decayOf v ^ n₀ :=
          pow_le_pow_of_le_one (le_of_lt (decayOf_pos v))
            (le_of_lt (decayOf_lt_one v hph)) (Nat.le_mul_of_pos_left n₀ hL)
        calc v.currentGain * decayOf v ^ (L * n₀)
            ≤ v.currentGain * decayOf v ^ n₀ :=
              mul_le_mul_of_nonneg_left hle (le_of_lt hg0)
          _ < v.currentGain * (0.001 / v.currentGain) :=
              mul_lt_mul_of_pos_left hn₀ hg0
          _ = 0.001 := by field_simp
      rw [voiceIterBlocks_succ, h]
      show voiceStepBlock L _ = none
      exact voiceStepBlock_kill L hL _ hlt

lemma length_filterMap_lt_of_none (f : Voice → Option Voice) :
    ∀ (vs : List Voice) (v : Voice), v ∈ vs → f v = none →
      (vs.filterMap f).length < vs.length := by
  intro vs
  induction vs with
  | nil => intro v hv; exact absurd hv (by simp)
  | cons a rest ih =>
      intro v hv hnone
      rw [List.filterMap_cons]
      rcases List.mem_cons.mp hv with rfl | hv2
      · rw [hnone]
        exact Nat.lt_succ_of_le (List.length_filterMap_le f rest)
      · cases hfa : f a
        · exact Nat.lt_succ_of_lt (ih v hv2 hnone)
        · simpa using Nat.succ_lt_succ (ih v hv2 hnone)

/-- C6: every voice in Stopping or Releasing phase, in an arbitrary pool, is
removed after finitely many render blocks and no note plays forever: both
per-sample envelope factors lie strictly below 1; the render pass evolves
each pool voice independently (the pool after n blocks is the per-voice
filterMap of the original pool); and the trajectory of the tracked voice
vanishes — the kill at gain below the 0.001 silence threshold zeroes its
gain and the cleanup of that block drops it — so the pool ends up strictly
smaller. -/
theorem C6_eventual_reclamation (s : PianoState) (v : Voice) (hv : v ∈ s.voices)
    (hph : v.phase = Phase.stopping ∨ v.phase = Phase.releasing)
    (L : ℕ) (hL : 1 ≤ L) :
    (0 < DECAY_FACTOR ∧ DECAY_FACTOR < 1) ∧
    (0 < RELEASE_FACTOR ∧ RELEASE_FACTOR < 1) ∧
    ∃ n : ℕ, (processIter L n s).voices = s.voices.filterMap (voiceIterBlocks L n) ∧
      voiceIterBlocks L n v = none ∧
      (processIter L n s).voices.length < s.voices.length := by
  refine ⟨⟨DECAY_FACTOR_pos, DECAY_FACTOR_lt_one⟩,
    ⟨RELEASE_FACTOR_pos, RELEASE_FACTOR_lt_one⟩, ?_⟩
  obtain ⟨n, hn⟩ := voiceIterBlocks_eventually L hL v hph
  refine ⟨n, processIter_voices L s n, hn, ?_⟩
  rw [processIter_voices L s n]
  exact length_filterMap_lt_of_none _ s.voices v hv hn

/-- Witness for C6 at a concrete two-voice re-strike pool: the old Stopping
voice is reclaimed while the new Sounding one need not be. -/
theorem C6_eventual_reclamation_witness :
    (0 < DECAY_FACTOR ∧ DECAY_FACTOR < 1) ∧
    (0 < RELEASE_FACTOR ∧ RELEASE_FACTOR < 1) ∧
    ∃ n : ℕ, (processIter 128 n restrikeState).voices
        = restrikeState.voices.filterMap (voiceIterBlocks 128 n) ∧
      voiceIterBlocks 128 n stoppingVoice = none ∧
      (processIter 128 n restrikeState).voices.length < restrikeState.voices.length :=
  C6_eventual_reclamation restrikeState stoppingVoice (List.mem_cons_self _ _)
    (Or.inl rfl) 128 (by norm_num)

lemma phase_sounding_iff (v : Voice) :
    v.phase = Phase.sounding ↔ (v.isStopping = false ∧ v.isReleasing = false) := by
  unfold Voice.phase
  cases hs : v.isStopping <;> cases hr : v.isReleasing <;> simp

lemma sustain_foldl_eq_map (pending : List ℤ) (vs : List Voice) :
    pending.foldl (fun vs2 midi => vs2.map (fun v =>
        if v.midi = midi ∧ v.isReleasing = false then { v with isReleasing := true } else v)) vs
      = vs.map (fun v =>
        if v.midi ∈ pending ∧ v.isReleasing = false
        then { v with isReleasing := true } else v) := by
  induction pending generalizing vs with
  | nil => simp
  | cons m rest ih =>
      rw [List.foldl_cons, ih, List.map_map]
      apply List.map_congr_left
      intro v _
      by_cases hm : v.midi = m
      · by_cases hr : v.isReleasing = false
        · simp [Function.comp, hm, hr]
        · simp [Function.comp, hm, hr]
      · by_cases hr : v.isReleasing = false
        · simp [Function.comp, hm, hr]
        · simp [Function.comp, hm, hr]

lemma handleSustain_release (s : PianoState) (h : s.sustainActive = true) :
    handleSustain s false =
      { s with
        sustainActive := false,
        voices := s.voices.map (fun v =>
          if v.midi ∈ s.notesPendingRelease ∧ v.isReleasing = false
          then { v with isReleasing := true } else v),
        notesPendingRelease := [] } := by
  unfold handleSustain
  rw [h]
  simp [sustain_foldl_eq_map]

lemma reflects_stopIf (midi : ℤ) :
    reflectsSounding (fun v =>
      if v.midi = midi ∧ v.isStopping = false
      then { v with isStopping := true } else v) := by
  intro v h
  by_cases hc : v.midi = midi ∧ v.isStopping = false
  · simp only [if_pos hc] at h
    rw [phase_sounding_iff] at h
    exact absurd h.1 (by simp)
  · simpa only [if_neg hc] using h

lemma reflects_releaseIf (midi : ℤ) :
    reflectsSounding (fun v =>
      if v.midi = midi ∧ v.isReleasing = false
      then { v with isReleasing := true } else v) := by
  intro v h
  by_cases hc : v.midi = midi ∧ v.isReleasing = false
  · simp only [if_pos hc] at h
    rw [phase_sounding_iff] at h
    exact absurd h.2 (by simp)
  · simpa only [if_neg hc] using h

lemma reflects_pendingIf (pending : List ℤ) :
    reflectsSounding (fun v =>
      if v.midi ∈ pending ∧ v.isReleasing = false
      then { v with isReleasing := true } else v) := by
  intro v h
  by_cases hc : v.midi ∈ pending ∧ v.isReleasing = false
  · simp only [if_pos hc] at h
    rw [phase_sounding_iff] at h
    exact absurd h.2 (by simp)
  · simpa only [if_neg hc] using h

lemma handleSustain_voices (s : PianoState) (b : Bool) :
    (handleSustain s b).voices =
      if s.sustainActive && !b then
        s.voices.map (fun v =>
          if v.midi ∈ s.notesPendingRelease ∧ v.isReleasing = false
          then { v with isReleasing := true } else v)
      else s.voices := by
  unfold handleSustain
  cases h : (s.sustainActive && !b)
  · simp [h]
  · simp [h, sustain_foldl_eq_map]

lemma config_voices (s : PianoState) (vol vs0 : Option ℝ) (tr : Option ℤ)
    (se : Option Bool) (rv : Option ℝ) :
    (handleMessage s (Msg.config vol vs0 tr se rv)).voices =
      (match se with
       | some b =>
          if s.sustainActive && !b then
            s.voices.map (fun v =>
              if v.midi ∈ s.notesPendingRelease ∧ v.isReleasing = false
              then { v with isReleasing := true } else v)
          else s.voices
       | none => s.voices) := by
  rcases vol with _ | a <;> rcases vs0 with _ | b0 <;> rcases tr with _ | c0 <;>
    rcases se with _ | b1 <;> rcases rv with _ | d0 <;>
    simp [handleMessage, handleSustain_voices]

lemma handleMessage_voices_cases (s : PianoState) (m : Msg) :
    ∃ f : Voice → Voice, reflectsSounding f ∧
      ((handleMessage s m).voices = s.voices.map f ∨
       ∃ w : Voice, (handleMessage s m).voices = s.voices.map f ++ [w]) := by
  cases m with
  | loadSample midi data =>
      exact ⟨fun v => v, fun v h => h, Or.inl (by simp [handleMessage])⟩
  | updateMap table =>
      exact ⟨fun v => v, fun v h => h, Or.inl (by simp [handleMessage])⟩
  | noteOn midi vel =>
      rcases hm : mapGet s.sampleMap (midi + s.transpose) with _ | root
      · exact ⟨fun v => v, fun v h => h,
          Or.inl (by simp [handleMessage, handleNoteOn, hm])⟩
      · rcases hs2 : mapGet s.samples root with _ | buf
        · exact ⟨fun v => v, fun v h => h,
            Or.inl (by simp [handleMessage, handleNoteOn, hm, hs2])⟩
        · refine ⟨fun v =>
            if v.midi = midi ∧ v.isStopping = false
            then { v with isStopping := true } else v, reflects_stopIf midi, Or.inr ?_⟩
          refine ⟨{ midi := midi, sample := buf, position := 0,
                    rate := (2 : ℝ) ^ (((midi + s.transpose - root : ℤ) : ℝ) / 12),
                    velocity := vel, currentGain := vel,
                    isReleasing := false, isStopping := false }, ?_⟩
          simp [handleMessage, handleNoteOn, hm, hs2]
  | noteOff midi =>
      cases hsus : s.sustainActive
      · exact ⟨fun v =>
          if v.midi = midi ∧ v.isReleasing = false
          then { v with isReleasing := true } else v, reflects_releaseIf midi,
          Or.inl (by simp [handleMessage, handleNoteOff, hsus])⟩
      · exact ⟨fun v => v, fun v h => h,
          Or.inl (by simp [handleMessage, handleNoteOff, hsus])⟩
  | sustain active =>
      cases h : (s.sustainActive && !active)
      · refine ⟨fun v => v, fun v h2 => h2, Or.inl ?_⟩
        show (handleSustain s active).voices = _
        rw [handleSustain_voices, h]
        simp
      · refine ⟨fun v =>
          if v.midi ∈ s.notesPendingRelease ∧ v.isReleasing = false
          then { v with isReleasing := true } else v,
          reflects_pendingIf s.notesPendingRelease, Or.inl ?_⟩
        show (handleSustain s active).voices = _
        rw [handleSustain_voices, h]
        simp
  | config vol vs0 tr se rv =>
      rcases se with _ | b
      · exact ⟨fun v => v, fun v h => h, Or.inl (by simp [config_voices])⟩
      · cases h : (s.sustainActive && !b)
        · refine ⟨fun v => v, fun v h2 => h2, Or.inl ?_⟩
          rw [config_voices]
          simp [h]
        · refine ⟨fun v =>
            if v.midi ∈ s.notesPendingRelease ∧ v.isReleasing = false
            then { v with isReleasing := true } else v,
            reflects_pendingIf s.notesPendingRelease, Or.inl ?_⟩
          rw [config_voices]
          simp [h]

lemma runMsgs_sounding (msgs : List Msg) :
    ∀ s : PianoState,
      s.voices.length ≤ (runMsgs s msgs).voices.length ∧
      ∀ (i : ℕ) (hi : i < s.voices.length) (hj : i < (runMsgs s msgs).voices.length),
        ((runMsgs s msgs).voices.get ⟨i, hj⟩).phase = Phase.sounding →
        (s.voices.get ⟨i, hi⟩).phase = Phase.sounding := by
  induction msgs with
  | nil => exact fun s => ⟨le_rfl, fun i hi hj h => h⟩
  | cons m rest ih =>
      intro s
      obtain ⟨f, hf, hcase⟩ := handleMessage_voices_cases s m
      have hlen : s.voices.length ≤ (handleMessage s m).voices.length := by
        rcases hcase with h | ⟨w, h⟩ <;> simp [h]
      have hget : ∀ (i : ℕ) (hi : i < s.voices.length)
          (hj : i < (handleMessage s m).voices.length),
          ((handleMessage s m).voices.get ⟨i, hj⟩).phase = Phase.sounding →
          (s.voices.get ⟨i, hi⟩).phase = Phase.sounding := by
        intro i hi hj h
        rcases hcase with hc | ⟨w, hc⟩
        · have h1 : (handleMessage s m).voices.get ⟨i, hj⟩ = f (s.voices.get ⟨i, hi⟩) := by
            rw [List.get_eq_getElem, List.get_eq_getElem, List.getElem_of_eq hc hj,
              List.getElem_map]
          rw [h1] at h
          exact hf _ h
        · have hmap : i < (s.voices.map f).length := by simpa using hi
          have h1 : (handleMessage s m).voices.get ⟨i, hj⟩ = f (s.voices.get ⟨i, hi⟩) := by
            rw [List.get_eq_getElem, List.get_eq_getElem, List.getElem_of_eq hc hj,
              List.getElem_append_left hmap, List.getElem_map]
          rw [h1] at h
          exact hf _ h
      have hrun : runMsgs s (m :: rest) = runMsgs (handleMessage s m) rest := rfl
      obtain ⟨hlen2, hget2⟩ := ih (handleMessage s m)
      rw [hrun]
      refine ⟨le_trans hlen hlen2, ?_⟩
      intro i hi hj h
      have hj1 : i < (handleMessage s m).voices.length := lt_of_lt_of_le hi hlen
      exact hget i hi hj1 (hget2 i hj1 hj h)

/-- C1: the derived phase of every voice is exactly one of Sounding,
Stopping, Releasing, and over any sequence of control messages the
transitions are one-directional: a voice (tracked by its pool index, which
control messages preserve) that is Sounding after the run was already
Sounding before it, so a voice that left Sounding never returns. -/
theorem C1_phase_invariant :
    (∀ v : Voice,
      (v.phase = Phase.sounding ∧ v.phase ≠ Phase.stopping ∧ v.phase ≠ Phase.releasing) ∨
      (v.phase = Phase.stopping ∧ v.phase ≠ Phase.sounding ∧ v.phase ≠ Phase.releasing) ∨
      (v.phase = Phase.releasing ∧ v.phase ≠ Phase.sounding ∧ v.phase ≠ Phase.stopping)) ∧
    (∀ (s : PianoState) (msgs : List Msg) (i : ℕ)
        (hi : i < s.voices.length) (hj : i < (runMsgs s msgs).voices.length),
      ((runMsgs s msgs).voices.get ⟨i, hj⟩).phase = Phase.sounding →
      (s.voices.get ⟨i, hi⟩).phase = Phase.sounding) := by
  constructor
  · intro v
    unfold Voice.phase
    cases hs : v.isStopping <;> cases hr : v.isReleasing <;> simp
  · exact fun s msgs i hi hj => (runMsgs_sounding msgs s).2 i hi hj

/-- Witness for C1: the sounding voice at index 0 stays accounted for under
a pedal-down message. -/
theorem C1_phase_invariant_witness :
    ((soundingVoice.phase = Phase.sounding ∧ soundingVoice.phase ≠ Phase.stopping ∧
        soundingVoice.phase ≠ Phase.releasing) ∨
      (soundingVoice.phase = Phase.stopping ∧ soundingVoice.phase ≠ Phase.sounding ∧
        soundingVoice.phase ≠ Phase.releasing) ∨
      (soundingVoice.phase = Phase.releasing ∧ soundingVoice.phase ≠ Phase.sounding ∧
        soundingVoice.phase ≠ Phase.stopping)) ∧
    (pedalState.voices.get ⟨0, by simp [pedalState, baseState]⟩).phase = Phase.sounding := by
  refine ⟨C1_phase_invariant.1 soundingVoice, ?_⟩
  exact C1_phase_invariant.2 pedalState [Msg.sustain true] 0
    (by simp [pedalState, baseState])
    (by simp [pedalState, baseState, runMsgs, handleMessage, handleSustain]) rfl

/-- C5: a note-on whose effective MIDI number has no pitch-map entry, or
whose mapped root has no loaded sample buffer, leaves the engine state
exactly unchanged: no voice is created and no other field is mutated. -/
theorem C5_silent_drop (s : PianoState) (midi : ℤ) (vel : ℝ)
    (h : mapGet s.sampleMap (midi + s.transpose) = none ∨
         ∃ root, mapGet s.sampleMap (midi + s.transpose) = some root ∧
           mapGet s.samples root = none) :
    handleNoteOn s midi vel = s := by
  rcases h with h | ⟨root, h1, h2⟩
  · simp only [handleNoteOn, h]
  · simp only [handleNoteOn, h1, h2]

/-- Witness for C5: note-on for note 200 with no bank coverage. -/
theorem C5_silent_drop_witness :
    mapGet baseState.sampleMap (200 + baseState.transpose) = none ∧
    handleNoteOn baseState 200 1 = baseState :=
  ⟨rfl, C5_silent_drop baseState 200 1 (Or.inl rfl)⟩

/-- C4: the voice appended by a successful note-on has playback rate
2^((effectiveMidi − sampleRootMidi)/12) where effectiveMidi is the requested
note plus transpose; for an effective target one octave above the root the
rate is exactly 2, one octave below exactly 1/2. -/
theorem C4_playback_rate (s : PianoState) (midi : ℤ) (vel : ℝ) (root : ℤ)
    (buf : List ℝ)
    (h1 : mapGet s.sampleMap (midi + s.transpose) = some root)
    (h2 : mapGet s.samples root = some buf) :
    (handleNoteOn s midi vel).voices.getLast? =
      some { midi := midi, sample := buf, position := 0,
             rate := (2 : ℝ) ^ (((midi + s.transpose - root : ℤ) : ℝ) / 12),
             velocity := vel, currentGain := vel,
             isReleasing := false, isStopping := false } ∧
    (2 : ℝ) ^ ((((72 : ℤ) - 60 : ℤ) : ℝ) / 12) = 2 ∧
    (2 : ℝ) ^ ((((48 : ℤ) - 60 : ℤ) : ℝ) / 12) = 1 / 2 := by
  refine ⟨?_, ?_, ?_⟩
  · simp only [handleNoteOn, h1, h2]
    simp
  · have h12 : (((72 : ℤ) - 60 : ℤ) : ℝ) / 12 = 1 := by norm_num
    rw [h12, Real.rpow_one]
  · have hm12 : (((48 : ℤ) - 60 : ℤ) : ℝ) / 12 = ((-1 : ℤ) : ℝ) := by norm_num
    rw [hm12, Real.rpow_intCast]
    norm_num

/-- C2: with the pedal down, note-off leaves every voice untouched and only
adds the note to the pending-release set; a Sounding voice is subject to no
envelope decay during rendering (its gain is preserved, or zeroed exactly
when the voice is killed for removal); and the pedal-down to pedal-up
transition clears the pending set and turns every pending Sounding voice
into a Releasing one. -/
theorem C2_sustain_deferral :
    (∀ (s : PianoState) (midi : ℤ), s.sustainActive = true →
      (handleNoteOff s midi).voices = s.voices ∧
      (handleNoteOff s midi).notesPendingRelease = setAdd s.notesPendingRelease midi ∧
      midi ∈ (handleNoteOff s midi).notesPendingRelease) ∧
    (∀ (vol wet : ℝ) (mp : ℤ) (n fuel : ℕ) (v : Voice)
        (cfs : List CombFilter) (out : List ℝ),
      v.phase = Phase.sounding →
      (renderVoiceFrames vol wet mp n fuel v cfs out).1.currentGain = v.currentGain ∨
      (renderVoiceFrames vol wet mp n fuel v cfs out).1.currentGain = 0) ∧
    (∀ s : PianoState, s.sustainActive = true →
      (handleSustain s false).sustainActive = false ∧
      (handleSustain s false).notesPendingRelease = [] ∧
      (handleSustain s false).voices = s.voices.map (fun v =>
        if v.midi ∈ s.notesPendingRelease ∧ v.isReleasing = false
        then { v with isReleasing := true } else v) ∧
      ∀ v : Voice, v.midi ∈ s.notesPendingRelease → v.phase = Phase.sounding →
        (if v.midi ∈ s.notesPendingRelease ∧ v.isReleasing = false
         then { v with isReleasing := true } else v).phase = Phase.releasing) := by
  refine ⟨?_, ?_, ?_⟩
  · intro s midi h
    unfold handleNoteOff
    rw [h]
    refine ⟨rfl, rfl, ?_⟩
    show midi ∈ setAdd s.notesPendingRelease midi
    unfold setAdd
    split
    · assumption
    · simp
  · intro vol wet mp n fuel v cfs out hph
    obtain ⟨hs, hr⟩ := (phase_sounding_iff v).mp hph
    have hd : decayOf v = 1 := by unfold decayOf; rw [hs, hr]; simp
    rcases renderVoiceFrames_gain vol wet mp fuel n v cfs out with h | ⟨hg, _⟩
    · right; exact h
    · left; rw [hg, hd]; simp
  · intro s h
    rw [handleSustain_release s h]
    refine ⟨rfl, rfl, rfl, ?_⟩
    intro v hm hph
    obtain ⟨hs, hr⟩ := (phase_sounding_iff v).mp hph
    rw [if_pos ⟨hm, hr⟩]
    unfold Voice.phase
    simp [hs]

/-- Witness for C2: note-on 60, pedal down, note-off 60 defers into the
pending set; pedal up releases the voice. -/
theorem C2_sustain_deferral_witness :
    (60 ∈ (handleNoteOff pedalState 60).notesPendingRelease) ∧
    ((handleSustain pedalPendingState false).voices
      = [{ soundingVoice with isReleasing := true }]) ∧
    ((renderVoiceFrames 1 0 2 0 1 soundingVoice [] [0]).1.currentGain
        = soundingVoice.currentGain ∨
      (renderVoiceFrames 1 0 2 0 1 soundingVoice [] [0]).1.currentGain = 0) := by
  refine ⟨?_, ?_, ?_⟩
  · exact (C2_sustain_deferral.1 pedalState 60 rfl).2.2
  · rw [(C2_sustain_deferral.2.2 pedalPendingState rfl).2.2.1]
    simp [pedalPendingState, soundingVoice]
  · exact C2_sustain_deferral.2.1 1 0 2 0 1 soundingVoice [] [0] rfl

/-- C3: a successful note-on marks every existing voice for the same note as
Stopping — regardless of the pedal state, since handleNoteOn never consults
sustain — and appends a fresh Sounding voice, so exactly one voice for the
note is Sounding afterwards; and a Stopping voice's gain strictly decreases
on every rendered frame. -/
theorem C3_restrike (s : PianoState) (midi : ℤ) (vel : ℝ) (root : ℤ)
    (buf : List ℝ)
    (h1 : mapGet s.sampleMap (midi + s.transpose) = some root)
    (h2 : mapGet s.samples root = some buf) :
    ((handleNoteOn s midi vel).voices
        = s.voices.map (fun v =>
            if v.midi = midi ∧ v.isStopping = false
            then { v with isStopping := true } else v)
          ++ [{ midi := midi, sample := buf, position := 0,
                rate := (2 : ℝ) ^ (((midi + s.transpose - root : ℤ) : ℝ) / 12),
                velocity := vel, currentGain := vel,
                isReleasing := false, isStopping := false }]) ∧
    (∀ v : Voice, v.midi = midi →
      (if v.midi = midi ∧ v.isStopping = false
       then { v with isStopping := true } else v).phase = Phase.stopping) ∧
    ((handleNoteOn s midi vel).voices.countP
        (fun v => decide (v.midi = midi ∧ v.phase = Phase.sounding)) = 1) ∧
    (∀ (vol wet : ℝ) (mp : ℤ) (n : ℕ) (w : Voice)
        (cfs : List CombFilter) (out : List ℝ),
      w.isStopping = true → ¬(⌊w.position⌋ ≥ mp ∨ w.currentGain < 0.001) →
      (renderVoiceFrames vol wet mp n 1 w cfs out).1.currentGain < w.currentGain) := by
  have hvoices : (handleNoteOn s midi vel).voices
      = s.voices.map (fun v =>
          if v.midi = midi ∧ v.isStopping = false
          then { v with isStopping := true } else v)
        ++ [{ midi := midi, sample := buf, position := 0,
              rate := (2 : ℝ) ^ (((midi + s.transpose - root : ℤ) : ℝ) / 12),
              velocity := vel, currentGain := vel,
              isReleasing := false, isStopping := false }] := by
    simp only [handleNoteOn, h1, h2]
  have hstopped : ∀ v : Voice, v.midi = midi →
      (if v.midi = midi ∧ v.isStopping = false
       then { v with isStopping := true } else v).phase = Phase.stopping := by
    intro v hv
    by_cases hstop : v.isStopping = false
    · rw [if_pos ⟨hv, hstop⟩]
      unfold Voice.phase
      simp
    · rw [if_neg (by simp [hstop])]
      unfold Voice.phase
      simp at hstop
      simp [hstop]
  refine ⟨hvoices, hstopped, ?_, ?_⟩
  · rw [hvoices, List.countP_append]
    have hmap0 : (s.voices.map (fun v =>
        if v.midi = midi ∧ v.isStopping = false
        then { v with isStopping := true } else v)).countP
          (fun v => decide (v.midi = midi ∧ v.phase = Phase.sounding)) = 0 := by
      rw [List.countP_eq_zero]
      intro a ha
      obtain ⟨v, _, rfl⟩ := List.mem_map.mp ha
      by_cases hv : v.midi = midi
      · have := hstopped v hv
        simp [this]
      · have hmidi : (if v.midi = midi ∧ v.isStopping = false
            then { v with isStopping := true } else v).midi = v.midi := by
          split <;> rfl
        simp [hmidi, hv]
    rw [hmap0]
    simp [Voice.phase]
  · intro vol wet mp n w cfs out hstop hna
    rw [renderVoiceFrames_succ, if_neg hna, renderVoiceFrames_zero]
    rw [frameStep_fst]
    show w.currentGain * decayOf w < w.currentGain
    have hg0 : (0 : ℝ) < w.currentGain := by
      rcases not_or.mp hna with ⟨_, hg⟩
      exact lt_of_lt_of_le (by norm_num) (not_lt.mp hg)
    have hd : decayOf w = DECAY_FACTOR := by
      unfold decayOf
      rw [if_pos hstop]
    rw [hd]
    exact mul_lt_of_lt_one_right hg0 DECAY_FACTOR_lt_one

/-- Witness for C3: re-strike of note 60 while the pedal is down. -/
theorem C3_restrike_witness :
    ((handleNoteOn pedalState 60 1).voices.countP
        (fun v => decide (v.midi = 60 ∧ v.phase = Phase.sounding)) = 1) ∧
    (renderVoiceFrames 1 0 2 0 1 stoppingVoice [] [0]).1.currentGain
      < stoppingVoice.currentGain := by
  refine ⟨(C3_restrike pedalState 60 1 60 [0, 0, 0, 0] rfl rfl).2.2.1, ?_⟩
  exact (C3_restrike pedalState 60 1 60 [0, 0, 0, 0] rfl rfl).2.2.2 1 0 2 0
    stoppingVoice [] [0] rfl (by norm_num [stoppingVoice])

/-- Witness for C4: note-on for note 72 on a bank rooted at 60. -/
theorem C4_playback_rate_witness :
    mapGet baseState.sampleMap (72 + baseState.transpose) = some 60 ∧
    mapGet baseState.samples 60 = some [0, 0, 0, 0] ∧
    ((handleNoteOn baseState 72 1).voices.getLast? =
      some { midi := 72, sample := [0, 0, 0, 0], position := 0,
             rate := (2 : ℝ) ^ (((72 + baseState.transpose - 60 : ℤ) : ℝ) / 12),
             velocity := 1, currentGain := 1,
             isReleasing := false, isStopping := false } ∧
      (2 : ℝ) ^ ((((72 : ℤ) - 60 : ℤ) : ℝ) / 12) = 2 ∧
      (2 : ℝ) ^ ((((48 : ℤ) - 60 : ℤ) : ℝ) / 12) = 1 / 2) :=
  ⟨rfl, rfl, C4_playback_rate baseState 72 1 60 [0, 0, 0, 0] rfl rfl⟩

/-- Counterexample for C9: a config message carrying reverb −1 stores −1 into
reverbWet — nothing clamps it into [0, 1]. -/
theorem C9_no_clamp_counterexample :
    (handleMessage baseState (Msg.config none none none none (some (-1)))).reverbWet = -1 ∧
    (handleMessage baseState (Msg.config none none none none (some (-1)))).reverbWet < 0 := by
  refine ⟨rfl, ?_⟩
  have h : (handleMessage baseState
      (Msg.config none none none none (some (-1)))).reverbWet = -1 := rfl
  rw [h]
  norm_num

/-- C9 amended: configuration values are applied without clamping: the reverb
amount is stored exactly as received, out-of-range values included; the
volume is converted from decibels via 10^(dB/20), which makes the stored
linear gain positive for every input, but no explicit clamping happens. -/
theorem C9_amended_no_clamp (s : PianoState) (r db : ℝ) :
    (handleMessage s (Msg.config none none none none (some r))).reverbWet = r ∧
    (handleMessage s (Msg.config (some db) none none none none)).volume
      = (10 : ℝ) ^ (db / 20) ∧
    0 < (handleMessage s (Msg.config (some db) none none none none)).volume := by
  refine ⟨rfl, rfl, ?_⟩
  show (0 : ℝ) < (10 : ℝ) ^ (db / 20)
  exact Real.rpow_pos_of_pos (by norm_num) _

/-- Witness for the amended C9 at reverb −1 and volume 0 dB. -/
theorem C9_amended_no_clamp_witness :
    (handleMessage baseState (Msg.config none none none none (some (-1)))).reverbWet = -1 ∧
    (handleMessage baseState (Msg.config (some 0) none none none none)).volume
      = (10 : ℝ) ^ ((0 : ℝ) / 20) ∧
    0 < (handleMessage baseState (Msg.config (some 0) none none none none)).volume :=
  C9_amended_no_clamp baseState (-1) 0

lemma combBank_writeIndices (x : ℝ) : ∀ cfs : List CombFilter,
    ((combBank cfs x).1).map (fun cf => cf.writeIndex)
      = cfs.map (fun cf => (cf.writeIndex + 1) % cf.buffer.length) := by
  intro cfs
  induction cfs with
  | nil => rfl
  | cons cf rest ih => simp [combBank, CombFilter.process, ih]

/-- Counterexample for C7: with reverb on (wet 1/2 > 0) and an empty voice
pool, a full one-frame render block advances no comb filter at all — the
write indices stay [0,0,0,0] instead of advancing by one per output frame,
because the code runs the comb bank per voice, inside the voice loop. -/
theorem C7_comb_counterexample :
    0 < reverbOnState.reverbWet ∧
    (process reverbOnState 1).2 = [0] ∧
    (process reverbOnState 1).1.combFilters = reverbOnState.combFilters ∧
    reverbOnState.combFilters.map (fun cf => cf.writeIndex) = [0, 0, 0, 0] := by
  refine ⟨?_, rfl, rfl, rfl⟩
  show (0 : ℝ) < reverbOnState.reverbWet
  have h : reverbOnState.reverbWet = 1 / 2 := rfl
  rw [h]
  norm_num

/-- C7 amended: each CombFilter.process call performs exactly the claimed
update (read at writeIndex, write input plus feedback, advance modulo
length); but the filters run once per rendered voice per sample on that
voice's individual signal, not once per output sample on the dry mix: with
an empty pool they do not advance at all, and a rendered frame of one voice
advances every filter by one and accumulates that voice's contribution
mono·(1 − wet·0.5) + wetAvg·wet into the output frame. -/
theorem C7_amended_comb_per_voice :
    (∀ (cf : CombFilter) (x : ℝ),
      cf.process x =
        ({ buffer := cf.buffer.set cf.writeIndex (x + cf.buffer.getD cf.writeIndex 0 * cf.feedback), writeIndex := (cf.writeIndex + 1) % cf.buffer.length, feedback := cf.feedback },
         cf.buffer.getD cf.writeIndex 0)) ∧
    (∀ (s : PianoState) (L : ℕ), s.voices = [] →
      (process s L).1.combFilters = s.combFilters ∧
      (process s L).2 = List.replicate L 0) ∧
    (∀ (x : ℝ) (cfs : List CombFilter),
      ((combBank cfs x).1).map (fun cf => cf.writeIndex)
        = cfs.map (fun cf => (cf.writeIndex + 1) % cf.buffer.length)) ∧
    (∀ (vol wet : ℝ) (v : Voice) (cfs : List CombFilter) (out : List ℝ) (n : ℕ),
      0 < wet →
      frameStep vol wet v cfs out n =
        ({ v with currentGain := v.currentGain * decayOf v, position := v.position + v.rate },
         (combBank cfs (interpolated v * (v.currentGain * decayOf v) * vol)).1,
         out.set n (out.getD n 0 +
           (interpolated v * (v.currentGain * decayOf v) * vol * (1 - wet * 0.5) +
            (combBank cfs (interpolated v * (v.currentGain * decayOf v) * vol)).2 * 0.25 * wet)))) := by
  refine ⟨fun cf x => rfl, ?_, fun x cfs => combBank_writeIndices x cfs, ?_⟩
  · intro s L hv
    constructor
    · show (process s L).1.combFilters = s.combFilters
      simp [process, hv, processVoices_nil]
    · show (process s L).2 = List.replicate L 0
      simp [process, hv, processVoices_nil]
  · intro vol wet v cfs out n hw
    obtain ⟨midi, sample, pos, rate, vel, gain, rel, stop⟩ := v
    cases stop <;> cases rel <;>
      simp [frameStep, decayOf, if_pos hw, mul_one]

/-- Witness for the amended C7: empty pool with reverb on, and one rendered
frame of a concrete sounding voice. -/
theorem C7_amended_comb_per_voice_witness :
    ((process reverbOnState 2).1.combFilters = reverbOnState.combFilters ∧
      (process reverbOnState 2).2 = List.replicate 2 0) ∧
    frameStep 1 (1 / 2) soundingVoice [] [0] 0 =
      ({ soundingVoice with currentGain := soundingVoice.currentGain * decayOf soundingVoice, position := soundingVoice.position + soundingVoice.rate },
       (combBank [] (interpolated soundingVoice *
          (soundingVoice.currentGain * decayOf soundingVoice) * 1)).1,
       ([0] : List ℝ).set 0 (([0] : List ℝ).getD 0 0 +
         (interpolated soundingVoice *
            (soundingVoice.currentGain * decayOf soundingVoice) * 1 * (1 - 1 / 2 * 0.5) +
          (combBank [] (interpolated soundingVoice *
             (soundingVoice.currentGain * decayOf soundingVoice) * 1)).2 * 0.25 * (1 / 2)))) :=
  ⟨C7_amended_comb_per_voice.2.1 reverbOnState 2 rfl,
   C7_amended_comb_per_voice.2.2.2 1 (1 / 2) soundingVoice [] [0] 0 (by norm_num)⟩

lemma abs_getD_le (l : List ℝ) (B : ℝ) (hB : 0 ≤ B)
    (h : ∀ b ∈ l, |b| ≤ B) (n : ℕ) : |l.getD n 0| ≤ B := by
  rcases lt_or_ge n l.length with hn | hn
  · rw [List.getD_eq_getElem l 0 hn]
    exact h _ (List.getElem_mem hn)
  · rw [List.getD_eq_default l 0 hn]
    simpa using hB

/-- C8: with feedback 0 ≤ f < 1, zero-or-bounded initial delay line and all
inputs bounded by M in absolute value, every comb filter output and every
delay-line entry stays bounded by M/(1−f) over an arbitrarily long run. -/
theorem C8_comb_stability (M : ℝ) (hM : 0 ≤ M) :
    ∀ (inputs : List ℝ) (cf : CombFilter),
      0 ≤ cf.feedback → cf.feedback < 1 →
      (∀ x ∈ inputs, |x| ≤ M) →
      (∀ b ∈ cf.buffer, |b| ≤ M / (1 - cf.feedback)) →
      (∀ y ∈ (cf.run inputs).2, |y| ≤ M / (1 - cf.feedback)) ∧
      (∀ b ∈ (cf.run inputs).1.buffer, |b| ≤ M / (1 - cf.feedback)) := by
  intro inputs
  induction inputs with
  | nil =>
      intro cf hf0 hf1 hin hbuf
      exact ⟨by simp [CombFilter.run], by simpa [CombFilter.run] using hbuf⟩
  | cons x xs ih =>
      intro cf hf0 hf1 hin hbuf
      have hone : 0 < 1 - cf.feedback := by linarith
      have hB : 0 ≤ M / (1 - cf.feedback) := div_nonneg hM (le_of_lt hone)
      have hout : |cf.buffer.getD cf.writeIndex 0| ≤ M / (1 - cf.feedback) :=
        abs_getD_le _ _ hB hbuf _
      have hxM : |x| ≤ M := hin x (by simp)
      have hnewval : |x + cf.buffer.getD cf.writeIndex 0 * cf.feedback|
          ≤ M / (1 - cf.feedback) := by
        have habs : |x + cf.buffer.getD cf.writeIndex 0 * cf.feedback|
            ≤ |x| + |cf.buffer.getD cf.writeIndex 0| * cf.feedback := by
          calc |x + cf.buffer.getD cf.writeIndex 0 * cf.feedback|
              ≤ |x| + |cf.buffer.getD cf.writeIndex 0 * cf.feedback| := abs_add _ _
            _ = |x| + |cf.buffer.getD cf.writeIndex 0| * cf.feedback := by
                rw [abs_mul, abs_of_nonneg hf0]
        have hmul : |cf.buffer.getD cf.writeIndex 0| * cf.feedback
            ≤ (M / (1 - cf.feedback)) * cf.feedback :=
          mul_le_mul_of_nonneg_right hout hf0
        have heq : M + (M / (1 - cf.feedback)) * cf.feedback = M / (1 - cf.feedback) := by
          field_simp
          ring
        linarith
      have hbuf2 : ∀ b ∈ (cf.process x).1.buffer, |b| ≤ M / (1 - cf.feedback) := by
        intro b hb
        rcases List.mem_or_eq_of_mem_set hb with hb2 | rfl
        · exact hbuf b hb2
        · exact hnewval
      obtain ⟨hy, hb⟩ := ih (cf.process x).1 hf0 hf1
        (fun z hz => hin z (List.mem_cons_of_mem _ hz)) hbuf2
      refine ⟨?_, ?_⟩
      · intro y hy2
        have hrun : (cf.run (x :: xs)).2
            = (cf.process x).2 :: ((cf.process x).1.run xs).2 := rfl
        rw [hrun] at hy2
        rcases List.mem_cons.mp hy2 with rfl | hy2
        · exact hout
        · exact hy y hy2
      · intro b hb2
        have hrun : (cf.run (x :: xs)).1 = ((cf.process x).1.run xs).1 := rfl
        rw [hrun] at hb2
        exact hb b hb2

/-- Witness for C8: one step of the concrete feedback-1/2 comb filter with
input bound 1. -/
theorem C8_comb_stability_witness :
    (∀ y ∈ (exCombFilter.run [1]).2, |y| ≤ 1 / (1 - exCombFilter.feedback)) ∧
    (∀ b ∈ (exCombFilter.run [1]).1.buffer, |b| ≤ 1 / (1 - exCombFilter.feedback)) := by
  refine C8_comb_stability 1 (by norm_num) [1] exCombFilter
    (by norm_num [exCombFilter]) (by norm_num [exCombFilter]) ?_ ?_
  · intro x hx
    rw [List.mem_singleton.mp hx]
    norm_num
  · intro b hb
    have hb2 : b = 0 := by
      have : exCombFilter.buffer = [0] := rfl
      rw [this] at hb
      exact List.mem_singleton.mp hb
    rw [hb2]
    norm_num [exCombFilter]

lemma eq_setVS_of_eraseVS_eq {s1 s2 : PianoState} (h : eraseVS s1 = eraseVS s2) :
    s1 = { s2 with velocitySensitivity := s1.velocitySensitivity } := by
  obtain ⟨a1, a2, a3, a4, a5, a6, a7, a8, a9, a10⟩ := s1
  obtain ⟨b1, b2, b3, b4, b5, b6, b7, b8, b9, b10⟩ := s2
  simp only [eraseVS, PianoState.mk.injEq] at h ⊢
  tauto

lemma handleSustain_setVS (s : PianoState) (x : ℝ) (b : Bool) :
    handleSustain { s with velocitySensitivity := x } b =
      { handleSustain s b with velocitySensitivity := x } := by
  cases h : (s.sustainActive && !b) <;> simp [handleSustain, h]

lemma handleNoteOn_setVS (s : PianoState) (x : ℝ) (midi : ℤ) (vel : ℝ) :
    handleNoteOn { s with velocitySensitivity := x } midi vel =
      { handleNoteOn s midi vel with velocitySensitivity := x } := by
  rcases h1 : mapGet s.sampleMap (midi + s.transpose) with _ | root
  · simp [handleNoteOn, h1]
  · rcases h2 : mapGet s.samples root with _ | buf <;> simp [handleNoteOn, h1, h2]

lemma handleMessage_stripVS (s : PianoState) (x : ℝ) (m : Msg) :
    handleMessage { s with velocitySensitivity := x } m =
      { handleMessage s (stripVS m) with velocitySensitivity := vsAfter x m } := by
  cases m with
  | loadSample midi data => rfl
  | updateMap table => rfl
  | noteOn midi vel => exact handleNoteOn_setVS s x midi vel
  | noteOff midi =>
      cases h : s.sustainActive <;> simp [handleMessage, handleNoteOff, stripVS, vsAfter, h]
  | sustain active => exact handleSustain_setVS s x active
  | config vol vs0 tr se rv =>
      rcases se with _ | b1
      · rcases vol with _ | a <;> rcases vs0 with _ | b0 <;> rcases tr with _ | c0 <;>
          rcases rv with _ | d0 <;> rfl
      · cases hsus : (s.sustainActive && !b1) <;>
          rcases vol with _ | a <;> rcases vs0 with _ | b0 <;> rcases tr with _ | c0 <;>
          rcases rv with _ | d0 <;>
          simp [handleMessage, handleSustain, stripVS, vsAfter, hsus]

lemma eraseVS_handleMessage (s1 s2 : PianoState) (m1 m2 : Msg)
    (hs : eraseVS s1 = eraseVS s2) (hm : stripVS m1 = stripVS m2) :
    eraseVS (handleMessage s1 m1) = eraseVS (handleMessage s2 m2) := by
  have h1 : s1 = { s2 with velocitySensitivity := s1.velocitySensitivity } :=
    eq_setVS_of_eraseVS_eq hs
  have h2 : eraseVS (handleMessage s1 m1) = eraseVS (handleMessage s2 (stripVS m1)) := by
    rw [h1, handleMessage_stripVS]
    rfl
  have h3 : eraseVS (handleMessage s2 m2) = eraseVS (handleMessage s2 (stripVS m2)) := by
    have h4 := handleMessage_stripVS s2 s2.velocitySensitivity m2
    calc eraseVS (handleMessage s2 m2)
        = eraseVS { handleMessage s2 (stripVS m2) with
            velocitySensitivity := vsAfter s2.velocitySensitivity m2 } := congrArg eraseVS h4
      _ = eraseVS (handleMessage s2 (stripVS m2)) := rfl
  rw [h2, h3, hm]

lemma process_eraseVS (s1 s2 : PianoState) (hs : eraseVS s1 = eraseVS s2) (L : ℕ) :
    (process s1 L).2 = (process s2 L).2 ∧
    eraseVS (process s1 L).1 = eraseVS (process s2 L).1 := by
  have h1 : s1 = { s2 with velocitySensitivity := s1.velocitySensitivity } :=
    eq_setVS_of_eraseVS_eq hs
  constructor
  · rw [h1]
    rfl
  · rw [h1]
    rfl

lemma runEvents_eraseVS : ∀ (es1 es2 : List Event),
    es1.map stripEventVS = es2.map stripEventVS →
    ∀ (s1 s2 : PianoState), eraseVS s1 = eraseVS s2 →
    (runEvents s1 es1).2 = (runEvents s2 es2).2 := by
  intro es1
  induction es1 with
  | nil =>
      intro es2 h s1 s2 hs
      have h2 : es2 = [] := List.map_eq_nil_iff.mp h.symm
      subst h2
      rfl
  | cons e1 rest1 ih =>
      intro es2 h s1 s2 hs
      rcases es2 with _ | ⟨e2, rest2⟩
      · simp at h
      · simp only [List.map_cons, List.cons.injEq] at h
        obtain ⟨he, hrest⟩ := h
        cases e1 with
        | msg m1 =>
            cases e2 with
            | msg m2 =>
                have hm : stripVS m1 = stripVS m2 := by
                  simpa [stripEventVS] using he
                exact ih rest2 hrest _ _ (eraseVS_handleMessage s1 s2 m1 m2 hs hm)
            | render L2 => simp [stripEventVS] at he
        | render L1 =>
            cases e2 with
            | msg m2 => simp [stripEventVS] at he
            | render L2 =>
                have hL : L1 = L2 := by simpa [stripEventVS] using he
                subst hL
                obtain ⟨hout, hstate⟩ := process_eraseVS s1 s2 hs L1
                simp only [runEvents]
                rw [hout, ih rest2 hrest _ _ hstate]

/-- C10: the rendered audio does not depend on velocitySensitivity. Two
runs from states equal except for velocitySensitivity, processing event
sequences equal except in the velocitySensitivity field of config messages,
produce identical output samples in every render block: the render pass
stores but never reads the field. -/
theorem C10_vs_noninterference (es1 es2 : List Event)
    (h : es1.map stripEventVS = es2.map stripEventVS)
    (s1 s2 : PianoState) (hs : eraseVS s1 = eraseVS s2) :
    (runEvents s1 es1).2 = (runEvents s2 es2).2 :=
  runEvents_eraseVS es1 es2 h s1 s2 hs

/-- Witness for C10: two concrete runs differing only in the
velocitySensitivity config value produce the same block outputs. -/
theorem C10_vs_noninterference_witness :
    (runEvents baseState vsEvents1).2 = (runEvents baseState vsEvents2).2 :=
  C10_vs_noninterference vsEvents1 vsEvents2 rfl baseState baseState rfl

end Piano

end
